import Mathlib

set_option autoImplicit false

namespace DeepIntrospect

/-!
Verification of the DeepIntrospect AI memory/knowledge pipeline against its
frontend implementation (`app/api/chat/[id]/message/route.ts`,
`components/chat/message-input.tsx`) and, where the backend component is not
part of the available sources, against the specification's own contracts.

Strings are modelled as Lean `String`/`List Char`; the route's asynchronous
control flow is modelled as explicit event lists and state records.
-/

/-! ## Character-list helpers mirroring the JavaScript string primitives -/

/-- JavaScript `a.startsWith(b)` on code-point lists. -/
def startsWith : List Char → List Char → Bool
  | _, [] => true
  | [], _ :: _ => false
  | c :: cs, d :: ds => c = d && startsWith cs ds

/-- JavaScript `s.includes(sub)` on code-point lists. -/
def containsSub : List Char → List Char → Bool
  | [], sub => startsWith [] sub
  | c :: cs, sub => startsWith (c :: cs) sub || containsSub cs sub

/-- `userMessage.toLowerCase().includes(sub)` where `sub` is already
lower-case in the source. -/
def includesLower (msg sub : String) : Bool :=
  containsSub (msg.data.map Char.toLower) sub.data

/-- JavaScript `s.trim()` on code-point lists: strip leading and trailing
whitespace. -/
def trimChars (s : List Char) : List Char :=
  ((s.dropWhile Char.isWhitespace).reverse.dropWhile Char.isWhitespace).reverse

/-- JavaScript `s.trim()`. -/
def trimStr (s : String) : String :=
  String.mk (trimChars s.data)

/-- JavaScript `s.split(" ")` helper: first word and remaining words. -/
def splitAux : List Char → List Char × List (List Char)
  | [] => ([], [])
  | c :: cs =>
    let r := splitAux cs
    if c = ' ' then ([], r.1 :: r.2) else (c :: r.1, r.2)

/-- JavaScript `s.split(" ")`: always returns at least one (possibly empty)
word. -/
def splitOnSpace (s : List Char) : List (List Char) :=
  (splitAux s).1 :: (splitAux s).2

/-- Concatenation of each word followed by one space: the total text pushed by
the chunking loop of `createSimulatedResponse`. -/
def concatSp : List (List Char) → List Char
  | [] => []
  | w :: ws => w ++ ' ' :: concatSp ws

/-! ## `createSimulatedResponse` (route.ts lines 241-279) -/

/-- The response text chosen by `createSimulatedResponse` for a user message;
`timeString`/`dateString` stand for `now.toLocaleTimeString()` and
`now.toLocaleDateString()`. -/
def responseTextFor (userMessage timeString dateString : String) : String :=
  if includesLower userMessage "hello" || includesLower userMessage "hi" then
    "Hello! I\x27m DeepIntrospect AI, designed to help you better understand yourself through thoughtful conversation. How are you feeling today?"
  else if includesLower userMessage "how are you" then
    "I\x27m functioning well, thank you for asking. More importantly, I\x27m curious about how you\x27re doing today. What\x27s on your mind?"
  else if includesLower userMessage "time" || includesLower userMessage "date" then
    "It\x27s currently " ++ timeString ++ " on " ++ dateString ++ ". How does the passage of time affect your thoughts or feelings today?"
  else if includesLower userMessage "help" || includesLower userMessage "purpose" then
    "I\x27m here to facilitate meaningful self-reflection through our conversations. By discussing your thoughts, experiences, and feelings, I can help you identify patterns and gain insights about yourself. What aspect of yourself would you like to explore today?"
  else if userMessage.length < 20 then
    "I\x27d love to dive deeper into that. Could you elaborate a bit more? The more you share, the better I can assist with your self-reflection journey."
  else
    "Thank you for sharing that. It sounds like this is something meaningful to you. I\x27m curious about how these experiences have shaped your perspective. Could you tell me more about how this relates to your values or goals?"

/-- The chunking loop of `createSimulatedResponse`: `currentChunk += word + " "`,
pushed when `currentChunk.length > 10` or the word equals the last word. -/
def chunkStep (last : List Char) : List (List Char) → List Char → List (List Char) → List (List Char)
  | [], _, acc => acc
  | w :: ws, cur, acc =>
    let cur2 := cur ++ w ++ [' ']
    if 10 < cur2.length ∨ w = last then chunkStep last ws [] (acc ++ [cur2])
    else chunkStep last ws cur2 acc

/-- `createSimulatedResponse`'s chunking of a response text
(`words = responseText.split(" ")`, `words[words.length - 1]` is the last
word). -/
def simChunks (text : List Char) : List (List Char) :=
  let words := splitOnSpace text
  chunkStep (words.getLastD []) words [] []

/-- `createSimulatedResponse(userMessage)` (route.ts lines 241-279), with the
current time/date strings passed explicitly. -/
def createSimulatedResponse (userMessage timeString dateString : String) : List String :=
  (simChunks (responseTextFor userMessage timeString dateString).data).map String.mk

/-! ## `processMessage` (route.ts lines 117-238) -/

/-- A single row of the `messages` table, as inserted by the route. -/
structure MessageRow where
  conversation_id : String
  role : String
  content : String
  created_at : Nat
  deriving Repr, DecidableEq

/-- The outcome of the `fetch` to the backend streaming endpoint as observed
by `processMessage`: the response is not ok / has no body, the body streams a
list of chunks, or the call throws (network failure). -/
inductive BackendResult where
  | unavailable
  | okStream (chunks : List String)
  | netError
  deriving Repr, DecidableEq

/-- The fallback text written by the `catch` block of `processMessage`. -/
def errorText : String := "An error occurred while processing your message."

/-- The `while (true)` read/accumulate/write loop of the real-backend path
(route.ts lines 199-208): returns the accumulated `assistantMessage` and the
chunks written to the response writer, in order. -/
def streamLoop : List String → String → List String → String × List String
  | [], acc, written => (acc, written)
  | c :: cs, acc, written => streamLoop cs (acc ++ c) (written ++ [c])

/-- Observable outcome of one `processMessage` run: the chunks written to the
caller's response stream (in order), the message rows inserted, whether the
writer was closed, and the `messages_count` value written to the
conversation (if any). -/
structure ProcOutcome where
  written : List String
  inserted : List MessageRow
  closed : Bool
  countUpdate : Option Nat
  deriving Repr, DecidableEq

/-- `processMessage(conversationId, content, model, writer, supabase, userId)`
(route.ts lines 117-238). `priorLen` is `messagesData.length` (the number of
rows fetched for the conversation, including the just-stored user message);
`now` stands for the insertion timestamp; `backend` is the observed result of
the `fetch` to the backend streaming endpoint. -/
def processMessage (conversationId content : String) (timeString dateString : String)
    (priorLen : Nat) (now : Nat) (backend : BackendResult) : ProcOutcome :=
  match backend with
  | .netError =>
    { written := [errorText], inserted := [], closed := true, countUpdate := none }
  | .unavailable =>
    let sim := createSimulatedResponse content timeString dateString
    let fullResponse := String.join sim
    { written := sim
      inserted := [⟨conversationId, "assistant", fullResponse, now⟩]
      closed := true
      countUpdate := some (priorLen + 2) }
  | .okStream cs =>
    let r := streamLoop cs "" []
    { written := r.2
      inserted := [⟨conversationId, "assistant", r.1, now⟩]
      closed := true
      countUpdate := some (priorLen + 2) }

/-! ## Event trace of the real-backend streaming loop (route.ts lines 196-208) -/

/-- One event of the read/write loop: reading chunk `i` from the backend
reader, the reader reporting `done`, or writing chunk `i` to the caller's
response stream. -/
inductive StreamEv where
  | readChunk (i : Nat)
  | readDone
  | writeChunk (i : Nat)
  deriving Repr, DecidableEq

/-- The ordered event trace of the `while (true)` loop when the backend body
yields the given chunk list: each iteration reads a chunk and immediately
writes it before the next read; the loop ends when the reader reports done. -/
def streamTraceAux : Nat → List String → List StreamEv
  | _, [] => [.readDone]
  | i, _ :: cs => .readChunk i :: .writeChunk i :: streamTraceAux (i + 1) cs

/-- Event trace of the real-backend streaming path for a chunk list. -/
def streamTrace (cs : List String) : List StreamEv :=
  streamTraceAux 0 cs

/-- `a` occurs strictly before `b` in the trace `tr`. -/
def occursBefore (a b : StreamEv) (tr : List StreamEv) : Prop :=
  ∃ l₁ l₂ l₃, tr = l₁ ++ a :: l₂ ++ b :: l₃

/-! ## `POST` handler (route.ts lines 5-115) -/

/-- A row of the `conversations` table; `messages_count` may be null
(`conversation.messages_count || 0`). -/
structure Conversation where
  id : String
  user_id : String
  messages_count : Option Nat
  model : String
  updated_at : Nat
  deriving Repr, DecidableEq

/-- The persistent state touched by the route: conversations and messages. -/
structure Db where
  conversations : List Conversation
  messages : List MessageRow
  deriving Repr, DecidableEq

/-- The `content` field of the parsed request body: absent (`undefined`), a
non-string JSON value, or a string. -/
inductive BodyContent where
  | missing
  | notAString
  | str (s : String)
  deriving Repr, DecidableEq

/-- The guard of route.ts line 47:
`!content || typeof content !== "string" || content.trim() === ""`. -/
def contentInvalid : BodyContent → Bool
  | .missing => true
  | .notAString => true
  | .str s => trimStr s = ""

/-- Result of the `POST` handler: HTTP status, resulting persistent state,
whether a streaming response was returned, and the user id forwarded to
`processMessage` (when streaming). -/
structure PostResult where
  status : Nat
  db : Db
  streaming : Bool
  forwardedUser : Option String
  deriving Repr, DecidableEq

/-- `supabase.from("conversations").select("*").eq("id", id).single()`:
errors unless exactly one row matches. -/
def findConversation (db : Db) (conversationId : String) : Option Conversation :=
  match db.conversations.filter (fun c => c.id = conversationId) with
  | [c] => some c
  | _ => none

/-- The conversation update of route.ts lines 76-84. -/
def updateConversation (db : Db) (conversationId model : String) (count : Nat) (now : Nat) : Db :=
  { db with
    conversations := db.conversations.map fun c =>
      if c.id = conversationId then
        { c with updated_at := now, model := model, messages_count := some count }
      else c }

/-- The `POST` route handler (route.ts lines 5-115) up to the point where the
streaming response is returned. `sessionUser` is the user id from
`supabase.auth.getSession()` (`none` when there is no session or a session
error); `body` is the parsed request body's `content`; `now` is the request
timestamp. -/
def POST (sessionUser : Option String) (db : Db) (conversationId : String)
    (body : BodyContent) (model : String) (now : Nat) : PostResult :=
  match sessionUser with
  | none => { status := 401, db := db, streaming := false, forwardedUser := none }
  | some uid =>
    match findConversation db conversationId with
    | none => { status := 404, db := db, streaming := false, forwardedUser := none }
    | some conversation =>
      if conversation.user_id ≠ uid then
        { status := 403, db := db, streaming := false, forwardedUser := none }
      else if contentInvalid body then
        { status := 400, db := db, streaming := false, forwardedUser := none }
      else
        match body with
        | .str content =>
          let db₁ : Db :=
            { db with messages := db.messages ++ [⟨conversationId, "user", content, now⟩] }
          let db₂ :=
            updateConversation db₁ conversationId model
              ((conversation.messages_count.getD 0) + 1) now
          { status := 200, db := db₂, streaming := true, forwardedUser := some uid }
        | _ => { status := 400, db := db, streaming := false, forwardedUser := none }

/-! ## `MessageInput.handleSubmit` (message-input.tsx lines 37-45) -/

/-- The component state read by `handleSubmit`: the controlled `message` value
and the `isLoading` prop. -/
structure MessageInputState where
  message : String
  isLoading : Bool
  deriving Repr, DecidableEq

/-- `handleSubmit` (message-input.tsx lines 37-45): returns the argument
passed to `onSend` (or `none` when the submit is ignored) and the new
component state. -/
def handleSubmit (s : MessageInputState) : Option String × MessageInputState :=
  let trimmedMessage := trimStr s.message
  if trimmedMessage = "" ∨ s.isLoading then (none, s)
  else (some trimmedMessage, { s with message := "" })

/-! ## Memory Retrieval Engine (spec §4.1) — backend code not in the available sources -/

/-- Source tag of a context fragment (spec §4.1 output contract). -/
inductive FragSource where
  | recency
  | graphFact
  | semantic
  deriving Repr, DecidableEq

/-- One context fragment with its source tag and token cost. -/
structure Fragment where
  source : FragSource
  text : String
  tokens : Nat
  deriving Repr, DecidableEq

/-- Tag a list of (text, token-cost) items with a source. -/
def tagFrags (src : FragSource) (xs : List (String × Nat)) : List Fragment :=
  xs.map fun x => ⟨src, x.1, x.2⟩

/-- Modelled from the spec: the truncation step of §4.1 — keep fragments in
priority order while they fit the remaining token budget, truncating the
lowest-priority tail first. -/
def fitBudget (budget : Nat) : List Fragment → List Fragment
  | [] => []
  | f :: fs => if f.tokens ≤ budget then f :: fitBudget (budget - f.tokens) fs else []

/-- Total token cost of a bundle. -/
def totalTokens (fs : List Fragment) : Nat :=
  (fs.map Fragment.tokens).sum

/-- Modelled from the spec: `build_context` (§4.1), whose backend
implementation is not among the available sources. The three inputs are the
recency window, the 1-hop graph facts, and the retrieved semantic memories;
they are ranked in the fixed priority order recency window > graph facts >
semantic memories and truncated to fit `budget_tokens`, lowest priority
first. -/
def build_context (recencyWindow graphFacts semanticMems : List (String × Nat))
    (budget_tokens : Nat) : List Fragment :=
  fitBudget budget_tokens
    (tagFrags .recency recencyWindow ++ tagFrags .graphFact graphFacts ++
      tagFrags .semantic semanticMems)

/-- Number of fragments of a bundle carrying a given source tag. -/
def countSource (src : FragSource) (fs : List Fragment) : Nat :=
  (fs.filter fun f => f.source = src).length

/-! ## Graph Store node upsert (spec §3, §4.2, §4.3) — backend code not in the available sources -/

/-- Split on whitespace: first word and remaining words. -/
def splitWsAux : List Char → List Char × List (List Char)
  | [] => ([], [])
  | c :: cs =>
    let r := splitWsAux cs
    if c.isWhitespace then ([], r.1 :: r.2) else (c :: r.1, r.2)

/-- Modelled from the spec: label normalization of the canonical key
(lower-cased, whitespace-normalized label, §4.2 merge policy): lower-case the
label, split on whitespace, drop empty words, re-join with single spaces. -/
def normalizeLabel (s : String) : String :=
  let r := splitWsAux (s.data.map Char.toLower)
  String.mk (List.intercalate [' '] ((r.1 :: r.2).filter fun w => w ≠ []))

/-- A GraphNode (spec §3), restricted to the fields the dedup invariant and
merge policy touch. -/
structure GraphNode where
  user_id : String
  ntype : String
  canonical_label : String
  attributes : List (String × String)
  mention_count : Nat
  last_reinforced_at : Nat
  deriving Repr, DecidableEq

/-- The canonical key of a node: (user_id, type, normalized canonical_label)
(spec §3). -/
def canonKey (n : GraphNode) : String × String × String :=
  (n.user_id, n.ntype, normalizeLabel n.canonical_label)

/-- Union of attribute maps (existing entries win on key conflicts). -/
def unionAttrs (old new : List (String × String)) : List (String × String) :=
  old ++ new.filter fun kv => ¬ old.any fun kv₀ => kv₀.1 = kv.1

/-- Modelled from the spec: the merge case of §4.2's merge policy — on a
canonical-key match, increment `mention_count`, union attributes, update the
timestamp. -/
def mergeNode (key : String × String × String) (attrs : List (String × String))
    (now : Nat) (n : GraphNode) : GraphNode :=
  if canonKey n = key then
    { n with
      mention_count := n.mention_count + 1
      attributes := unionAttrs n.attributes attrs
      last_reinforced_at := now }
  else n

/-- Modelled from the spec: `upsert_node` (§4.2 merge policy, §4.3 contract),
whose backend implementation is not among the available sources. If a stored
node matches the candidate's canonical key, merge; otherwise insert with
`mention_count` 1. -/
def upsert_node (store : List GraphNode) (uid ntype label : String)
    (attrs : List (String × String)) (now : Nat) : List GraphNode :=
  let key := (uid, ntype, normalizeLabel label)
  if store.any fun n => canonKey n = key then
    store.map (mergeNode key attrs now)
  else
    store ++ [⟨uid, ntype, label, attrs, 1, now⟩]

/-- The dedup invariant: at most one node per canonical key (spec §3). -/
def KeysNodup (store : List GraphNode) : Prop :=
  (store.map canonKey).Nodup

/-- Total mention count over a store. -/
def totalMentions (store : List GraphNode) : Nat :=
  (store.map GraphNode.mention_count).sum

/-! ## Orchestrator per-turn sequencing (spec §4.4) — backend code not in the available sources -/

/-- The per-turn state machine of spec §4.4. -/
inductive TurnPhase where
  | received
  | contextBuilt
  | generating
  | persistedPhase
  | extractionQueued
  | done
  deriving Repr, DecidableEq

/-- A (user message, assistant message) turn pair — the input of
`extract` (spec §4.2). -/
structure TurnPair where
  userMsg : String
  assistantMsg : String
  deriving Repr, DecidableEq

/-- A background job enqueued by the orchestrator. -/
inductive Job where
  | extractJob (pair : TurnPair)
  deriving Repr, DecidableEq

/-- Outcome of one orchestrated turn: chunks streamed to the caller, the
assistant response persisted as a MemoryUnit text, the background jobs
enqueued (not yet executed), and the phases traversed in order. -/
structure TurnOutcome where
  delivered : List String
  persistedResponse : String
  queued : List Job
  phases : List TurnPhase
  deriving Repr, DecidableEq

/-- Modelled from the spec: the orchestrator's per-turn sequencing (§4.4),
whose backend implementation is not among the available sources. The
generation collaborator's chunks are streamed, the full response persisted,
and extraction of the new turn pair enqueued as async work; the enqueued jobs
are returned unexecuted, to be run by a background worker after the turn
completes. -/
def orchestrateTurn (userMsg : String) (genChunks : List String) : TurnOutcome :=
  let response := String.join genChunks
  { delivered := genChunks
    persistedResponse := response
    queued := [.extractJob ⟨userMsg, response⟩]
    phases := [.received, .contextBuilt, .generating, .persistedPhase, .extractionQueued, .done] }

/-- Modelled from the spec: the background worker that runs the queued
extraction jobs (§4.2), applying the extraction function only after the turn
outcome — including delivery — is complete. -/
def runQueuedJobs {δ : Type} (extract : TurnPair → δ) (jobs : List Job) : List δ :=
  jobs.map fun j => match j with | .extractJob p => extract p

/-! ## Lemmas on the chunking of `createSimulatedResponse` -/

lemma splitAux_concat (s : List Char) :
    (splitAux s).1 ++ ' ' :: concatSp (splitAux s).2 = s ++ [' '] := by
  induction s with
  | nil => rfl
  | cons c cs ih =>
    by_cases hc : c = ' '
    · subst hc
      simp [splitAux, concatSp, ih]
    · simp [splitAux, hc, concatSp, ih]

lemma concatSp_splitOnSpace (s : List Char) :
    concatSp (splitOnSpace s) = s ++ [' '] := by
  simpa [splitOnSpace, concatSp] using splitAux_concat s

lemma chunkStep_nil (last cur : List Char) (acc : List (List Char)) :
    chunkStep last [] cur acc = acc := rfl

lemma chunkStep_cons (last w : List Char) (ws : List (List Char))
    (cur : List Char) (acc : List (List Char)) :
    chunkStep last (w :: ws) cur acc =
      if 10 < (cur ++ w ++ [' ']).length ∨ w = last then
        chunkStep last ws [] (acc ++ [cur ++ w ++ [' ']])
      else chunkStep last ws (cur ++ w ++ [' ']) acc := rfl

lemma chunkStep_flatten (last : List Char) :
    ∀ (ws : List (List Char)) (cur : List Char) (acc : List (List Char)),
      ws.getLast? = some last →
      (chunkStep last ws cur acc).flatten = acc.flatten ++ cur ++ concatSp ws := by
  intro ws
  induction ws with
  | nil => intro cur acc h; simp at h
  | cons w ws ih =>
    intro cur acc h
    cases ws with
    | nil =>
      have hw : w = last := by simpa using h
      rw [chunkStep_cons, if_pos (Or.inr hw), chunkStep_nil]
      simp [concatSp, List.append_assoc]
    | cons w₂ ws₂ =>
      rw [List.getLast?_cons_cons] at h
      rw [chunkStep_cons]
      split
      · rw [ih _ _ h]
        simp [concatSp, List.append_assoc]
      · rw [ih _ _ h]
        simp [concatSp, List.append_assoc]

lemma chunkStep_ne_nil (last : List Char) :
    ∀ (ws : List (List Char)) (cur : List Char) (acc : List (List Char)),
      (∀ c ∈ acc, c ≠ []) → ∀ c ∈ chunkStep last ws cur acc, c ≠ [] := by
  intro ws
  induction ws with
  | nil =>
    intro cur acc hacc
    simpa [chunkStep] using hacc
  | cons w ws ih =>
    intro cur acc hacc
    simp only [chunkStep]
    split
    · refine ih _ _ ?_
      intro c hc
      rcases List.mem_append.1 hc with h | h
      · exact hacc c h
      · rcases List.mem_singleton.1 h with rfl
        simp
    · exact ih _ _ hacc

lemma getLast?_splitOnSpace (t : List Char) :
    (splitOnSpace t).getLast? = some ((splitOnSpace t).getLastD []) := by
  rw [List.getLastD_eq_getLast?]
  cases h : (splitOnSpace t).getLast? with
  | none =>
    rw [List.getLast?_eq_none_iff] at h
    exact absurd h (by simp [splitOnSpace])
  | some x => rfl

lemma simChunks_flatten (t : List Char) :
    (simChunks t).flatten = t ++ [' '] := by
  rw [show simChunks t =
      chunkStep ((splitOnSpace t).getLastD []) (splitOnSpace t) [] [] from rfl]
  rw [chunkStep_flatten _ _ _ _ (getLast?_splitOnSpace t)]
  simp [concatSp_splitOnSpace]

lemma simChunks_ne_nil (t : List Char) : simChunks t ≠ [] := by
  intro h
  have h₂ := simChunks_flatten t
  rw [h] at h₂
  simp at h₂

lemma foldl_append_mk (cs : List (List Char)) :
    ∀ a : List Char,
      List.foldl (· ++ ·) (String.mk a) (cs.map String.mk) = String.mk (a ++ cs.flatten) := by
  induction cs with
  | nil => intro a; simp
  | cons c cs ih =>
    intro a
    simp only [List.map_cons, List.foldl_cons]
    rw [show String.mk a ++ String.mk c = String.mk (a ++ c) from rfl, ih]
    simp [List.append_assoc]

lemma join_map_mk (cs : List (List Char)) :
    String.join (cs.map String.mk) = String.mk cs.flatten := by
  show List.foldl (· ++ ·) "" (cs.map String.mk) = String.mk cs.flatten
  rw [show ("" : String) = String.mk [] from rfl]
  simpa using foldl_append_mk cs []

lemma createSimulatedResponse_join (msg t d : String) :
    String.join (createSimulatedResponse msg t d) = responseTextFor msg t d ++ " " := by
  unfold createSimulatedResponse
  rw [join_map_mk, simChunks_flatten]
  rfl

lemma createSimulatedResponse_chunks_ne_nil (msg t d : String) :
    ∀ c ∈ createSimulatedResponse msg t d, c ≠ "" := by
  intro c hc
  unfold createSimulatedResponse at hc
  rcases List.mem_map.1 hc with ⟨c', hc', rfl⟩
  have hne : c' ≠ [] :=
    chunkStep_ne_nil _ (splitOnSpace (responseTextFor msg t d).data) [] []
      (by simp) c' hc'
  intro he
  exact hne (congrArg String.data he)

lemma createSimulatedResponse_ne_nil (msg t d : String) :
    createSimulatedResponse msg t d ≠ [] := by
  unfold createSimulatedResponse
  simp [simChunks_ne_nil]

/-! ## Lemmas on `processMessage` and the streaming loop -/

lemma streamLoop_eq (cs : List String) :
    ∀ (acc : String) (w : List String),
      streamLoop cs acc w = (List.foldl (· ++ ·) acc cs, w ++ cs) := by
  induction cs with
  | nil => intro acc w; simp [streamLoop]
  | cons c cs ih =>
    intro acc w
    rw [show streamLoop (c :: cs) acc w = streamLoop cs (acc ++ c) (w ++ [c]) from rfl, ih]
    simp

lemma readDone_mem_streamTraceAux (cs : List String) :
    ∀ j, StreamEv.readDone ∈ streamTraceAux j cs := by
  induction cs with
  | nil => intro j; simp [streamTraceAux]
  | cons c cs ih => intro j; simp [streamTraceAux, ih]

lemma write_before_read_aux :
    ∀ (cs : List String) (j k : Nat), k + 1 < cs.length →
      occursBefore (.writeChunk (j + k)) (.readChunk (j + k + 1)) (streamTraceAux j cs) := by
  intro cs
  induction cs with
  | nil => intro j k h; simp at h
  | cons c cs ih =>
    intro j k h
    cases k with
    | zero =>
      cases cs with
      | nil => simp at h
      | cons c₂ cs₂ =>
        refine ⟨[.readChunk j], [], .writeChunk (j + 1) :: streamTraceAux (j + 2) cs₂, ?_⟩
        simp [streamTraceAux]
    | succ k =>
      have h' : k + 1 < cs.length := by simp [List.length_cons] at h; omega
      obtain ⟨l₁, l₂, l₃, hdec⟩ := ih (j + 1) k h'
      refine ⟨.readChunk j :: .writeChunk j :: l₁, l₂, l₃, ?_⟩
      have e₁ : j + 1 + k = j + (k + 1) := by omega
      rw [e₁] at hdec
      simp [streamTraceAux, hdec]

lemma write_head_before_done (cs : List String) (j : Nat) (h : cs ≠ []) :
    occursBefore (.writeChunk j) .readDone (streamTraceAux j cs) := by
  cases cs with
  | nil => exact absurd rfl h
  | cons c cs =>
    obtain ⟨s, t, hst⟩ := List.append_of_mem (readDone_mem_streamTraceAux cs (j + 1))
    exact ⟨[.readChunk j], s, t, by simp [streamTraceAux, hst]⟩

/-! ## Claim theorems -/

/-- **C1.** For every turn whose generation stream completes (the backend
fetch did not throw), the assistant response persisted by `processMessage` is
exactly one assistant-role message whose content is the concatenation of all
chunks streamed to the caller — on both the real-backend path and the
simulated-response path. -/
theorem C1_persisted_is_streamed_concat (cid content t d : String) (priorLen now : Nat)
    (backend : BackendResult) (h : backend ≠ BackendResult.netError) :
    (processMessage cid content t d priorLen now backend).inserted =
      [⟨cid, "assistant",
        String.join (processMessage cid content t d priorLen now backend).written, now⟩] := by
  cases backend with
  | netError => exact absurd rfl h
  | unavailable => rfl
  | okStream cs =>
    simp only [processMessage]
    rw [streamLoop_eq]
    rfl

theorem C1_witness :
    (BackendResult.okStream ["ab", "c"] ≠ BackendResult.netError) ∧
      (processMessage "c1" "hi" "T" "D" 1 7 (.okStream ["ab", "c"])).inserted =
        [⟨"c1", "assistant",
          String.join (processMessage "c1" "hi" "T" "D" 1 7 (.okStream ["ab", "c"])).written, 7⟩] :=
  ⟨by decide,
   C1_persisted_is_streamed_concat "c1" "hi" "T" "D" 1 7 (.okStream ["ab", "c"]) (by decide)⟩

/-- **C2.** `processMessage` always closes the caller's stream, and whenever
the generation backend is unavailable or the call errors, a non-empty
user-visible response (simulated text or the fallback error message) is still
written to the stream: the turn is never dropped for a non-generation
cause. -/
theorem C2_fallback_delivery (cid content t d : String) (priorLen now : Nat)
    (backend : BackendResult) :
    (processMessage cid content t d priorLen now backend).closed = true ∧
      (backend = BackendResult.unavailable ∨ backend = BackendResult.netError →
        (processMessage cid content t d priorLen now backend).written ≠ []) := by
  constructor
  · cases backend <;> rfl
  · rintro (rfl | rfl)
    · exact createSimulatedResponse_ne_nil content t d
    · simp [processMessage]

theorem C2_witness :
    (processMessage "c1" "hi" "T" "D" 0 0 .unavailable).closed = true ∧
      (processMessage "c1" "hi" "T" "D" 0 0 .unavailable).written ≠ [] :=
  ⟨(C2_fallback_delivery "c1" "hi" "T" "D" 0 0 .unavailable).1,
   (C2_fallback_delivery "c1" "hi" "T" "D" 0 0 .unavailable).2 (Or.inl rfl)⟩

/-- **C3.** The real-backend streaming loop is pass-through, not buffered: in
its event trace, every received chunk is written to the caller's stream
before the next chunk is read, and (for a non-empty stream) the first write
occurs before the reader reports completion. -/
theorem C3_passthrough_streaming (cs : List String) :
    (∀ i, i + 1 < cs.length →
        occursBefore (.writeChunk i) (.readChunk (i + 1)) (streamTrace cs)) ∧
      (cs ≠ [] → occursBefore (.writeChunk 0) .readDone (streamTrace cs)) := by
  constructor
  · intro i hi
    have h := write_before_read_aux cs 0 i hi
    simpa [streamTrace] using h
  · intro h
    exact write_head_before_done cs 0 h

theorem C3_witness :
    occursBefore (.writeChunk 0) (.readChunk 1) (streamTrace ["a", "b"]) ∧
      occursBefore (.writeChunk 0) .readDone (streamTrace ["a", "b"]) :=
  ⟨(C3_passthrough_streaming ["a", "b"]).1 0 (by decide),
   (C3_passthrough_streaming ["a", "b"]).2 (by decide)⟩

/-- **C9 counterexample.** The claim "concatenating the chunks returned by
`createSimulatedResponse` reproduces exactly the simulated response text,
with no characters lost or added" is false: for the message "hello" the
concatenation differs from the chosen response text (a trailing space is
appended). -/
theorem C9_counterexample :
    String.join (createSimulatedResponse "hello" "12:00:00" "1/1/2026") ≠
      responseTextFor "hello" "12:00:00" "1/1/2026" := by
  rw [createSimulatedResponse_join]
  intro h
  have h₂ := congrArg String.length h
  rw [String.length_append] at h₂
  have h₃ : (" " : String).length = 1 := rfl
  omega

/-- **C9 (amended).** For every input user message (and time/date strings),
concatenating the chunks returned by `createSimulatedResponse` yields the
simulated response text chosen for that message followed by exactly one
trailing space (each word contributes `word + " "`), and every returned chunk
is non-empty. -/
theorem C9_chunks_concat (msg t d : String) :
    String.join (createSimulatedResponse msg t d) = responseTextFor msg t d ++ " " ∧
      ∀ c ∈ createSimulatedResponse msg t d, c ≠ "" :=
  ⟨createSimulatedResponse_join msg t d, createSimulatedResponse_chunks_ne_nil msg t d⟩

theorem C9_witness :
    String.join (createSimulatedResponse "hello" "T" "D") =
        responseTextFor "hello" "T" "D" ++ " " ∧
      "Hello! I\x27m " ≠ "" :=
  ⟨(C9_chunks_concat "hello" "T" "D").1,
   (C9_chunks_concat "hello" "T" "D").2 "Hello! I\x27m " (by decide)⟩

/-! ## Evaluation lemmas for the `POST` handler -/

lemma POST_none (db : Db) (cid : String) (body : BodyContent) (model : String) (now : Nat) :
    POST none db cid body model now = ⟨401, db, false, none⟩ := rfl

lemma POST_noconv (uid : String) (db : Db) (cid : String) (body : BodyContent)
    (model : String) (now : Nat) (h : findConversation db cid = none) :
    POST (some uid) db cid body model now = ⟨404, db, false, none⟩ := by
  simp [POST, h]

lemma POST_notowner (uid : String) (conversation : Conversation) (db : Db) (cid : String)
    (body : BodyContent) (model : String) (now : Nat)
    (hc : findConversation db cid = some conversation)
    (h : conversation.user_id ≠ uid) :
    POST (some uid) db cid body model now = ⟨403, db, false, none⟩ := by
  simp [POST, hc, h]

lemma POST_badcontent (uid : String) (conversation : Conversation) (db : Db) (cid : String)
    (body : BodyContent) (model : String) (now : Nat)
    (hc : findConversation db cid = some conversation)
    (hown : conversation.user_id = uid)
    (hb : contentInvalid body = true) :
    POST (some uid) db cid body model now = ⟨400, db, false, none⟩ := by
  simp [POST, hc, hown, hb]

lemma POST_ok (uid : String) (conversation : Conversation) (content : String)
    (db : Db) (cid model : String) (now : Nat)
    (hc : findConversation db cid = some conversation)
    (hown : conversation.user_id = uid)
    (hb : contentInvalid (.str content) = false) :
    POST (some uid) db cid (.str content) model now =
      ⟨200,
        updateConversation
          { db with messages := db.messages ++ [⟨cid, "user", content, now⟩] }
          cid model ((conversation.messages_count.getD 0) + 1) now,
        true, some uid⟩ := by
  simp [POST, hc, hown, hb]

/-- **C7 counterexample.** The claim that the message route "does not reject
requests based on resource-ownership checks of its own" is false: two
requests differing only in the session user get a 403 rejection (conversation
owned by another user) versus a 200 streaming response. -/
theorem C7_counterexample :
    (POST (some "bob") ⟨[⟨"c1", "alice", some 3, "anthropic", 0⟩], []⟩ "c1"
        (.str "hello") "anthropic" 1).status = 403 ∧
      (POST (some "alice") ⟨[⟨"c1", "alice", some 3, "anthropic", 0⟩], []⟩ "c1"
        (.str "hello") "anthropic" 1).status = 200 := by
  constructor <;> rfl

/-- **C7 (amended).** The message route itself performs exactly one
resource-ownership check: it returns 403 precisely when the session is valid
and the conversation exists but belongs to a different user; whenever the
request proceeds to processing, the user id forwarded to the pipeline is the
authentication collaborator's session user id, trusted without further
checks. -/
theorem C7_ownership_gate (sessionUser : Option String) (db : Db) (cid : String)
    (body : BodyContent) (model : String) (now : Nat) :
    ((POST sessionUser db cid body model now).status = 403 ↔
        ∃ uid conversation, sessionUser = some uid ∧
          findConversation db cid = some conversation ∧ conversation.user_id ≠ uid) ∧
      ((POST sessionUser db cid body model now).streaming = true →
        (POST sessionUser db cid body model now).forwardedUser = sessionUser) := by
  cases sessionUser with
  | none =>
    rw [POST_none]
    simp
  | some uid =>
    cases hconv : findConversation db cid with
    | none =>
      rw [POST_noconv uid db cid body model now hconv]
      simp
    | some conversation =>
      by_cases hown : conversation.user_id = uid
      · by_cases hbad : contentInvalid body = true
        · rw [POST_badcontent uid conversation db cid body model now hconv hown hbad]
          refine ⟨⟨fun h => by simp at h, ?_⟩, fun h => by simp at h⟩
          rintro ⟨uid', conv', huid, hconv', hne⟩
          obtain rfl := Option.some.inj huid
          obtain rfl := Option.some.inj hconv'
          exact absurd hown hne
        · cases body with
          | missing => simp [contentInvalid] at hbad
          | notAString => simp [contentInvalid] at hbad
          | str content =>
            rw [POST_ok uid conversation content db cid model now hconv hown
              (by simpa using hbad)]
            refine ⟨⟨fun h => by simp at h, ?_⟩, fun _ => rfl⟩
            rintro ⟨uid', conv', huid, hconv', hne⟩
            obtain rfl := Option.some.inj huid
            obtain rfl := Option.some.inj hconv'
            exact absurd hown hne
      · rw [POST_notowner uid conversation db cid body model now hconv hown]
        exact ⟨⟨fun _ => ⟨uid, conversation, rfl, rfl, hown⟩, fun _ => rfl⟩,
          fun h => by simp at h⟩

theorem C7_witness :
    (POST (some "bob") ⟨[⟨"c1", "alice", some 3, "anthropic", 0⟩], []⟩ "c1"
        (.str "hello") "anthropic" 1).status = 403 ∧
      (POST (some "alice") ⟨[⟨"c1", "alice", some 3, "anthropic", 0⟩], []⟩ "c1"
          (.str "hello") "anthropic" 1).forwardedUser = some "alice" :=
  ⟨(C7_ownership_gate (some "bob") ⟨[⟨"c1", "alice", some 3, "anthropic", 0⟩], []⟩ "c1"
        (.str "hello") "anthropic" 1).1.mpr
      ⟨"bob", ⟨"c1", "alice", some 3, "anthropic", 0⟩, rfl, rfl, by decide⟩,
   (C7_ownership_gate (some "alice") ⟨[⟨"c1", "alice", some 3, "anthropic", 0⟩], []⟩ "c1"
        (.str "hello") "anthropic" 1).2 rfl⟩

/-- **C8 counterexample.** The claim that every POST whose content trims to
empty returns HTTP 400 is false: an unauthenticated POST with whitespace-only
content returns 401, not 400 (the session check runs before body
validation). -/
theorem C8_counterexample :
    (POST none ⟨[⟨"c1", "alice", some 3, "anthropic", 0⟩], []⟩ "c1" (.str " ")
        "anthropic" 1).status = 401 ∧
      (POST none ⟨[⟨"c1", "alice", some 3, "anthropic", 0⟩], []⟩ "c1" (.str " ")
        "anthropic" 1).status ≠ 400 := by
  constructor
  · rfl
  · decide

/-- **C8 (amended).** For every POST whose body content is absent, not a
string, or trims to the empty string, the persistent state is left unchanged
(no message row inserted, conversation untouched); and if the request passed
the session, existence and ownership checks, the route returns HTTP 400. -/
theorem C8_invalid_content_rejected (sessionUser : Option String) (db : Db)
    (cid : String) (body : BodyContent) (model : String) (now : Nat)
    (hbad : contentInvalid body = true) :
    (POST sessionUser db cid body model now).db = db ∧
      (∀ uid conversation, sessionUser = some uid →
        findConversation db cid = some conversation → conversation.user_id = uid →
        (POST sessionUser db cid body model now).status = 400) := by
  cases sessionUser with
  | none =>
    rw [POST_none]
    exact ⟨rfl, by intro uid conv h; simp at h⟩
  | some uid =>
    cases hconv : findConversation db cid with
    | none =>
      rw [POST_noconv uid db cid body model now hconv]
      refine ⟨rfl, ?_⟩
      intro uid' conv' h₁ h₂ h₃
      exact absurd h₂ (by simp)
    | some conversation =>
      by_cases hown : conversation.user_id = uid
      · rw [POST_badcontent uid conversation db cid body model now hconv hown hbad]
        exact ⟨rfl, fun _ _ _ _ _ => rfl⟩
      · rw [POST_notowner uid conversation db cid body model now hconv hown]
        refine ⟨rfl, ?_⟩
        intro uid' conv' h₁ h₂ h₃
        obtain rfl := Option.some.inj h₁
        obtain rfl := Option.some.inj h₂
        exact absurd h₃ hown

theorem C8_witness :
    contentInvalid (.str "  ") = true ∧
      (POST (some "alice") ⟨[⟨"c1", "alice", some 3, "anthropic", 0⟩], []⟩ "c1"
          (.str "  ") "anthropic" 1).db =
        ⟨[⟨"c1", "alice", some 3, "anthropic", 0⟩], []⟩ ∧
      (POST (some "alice") ⟨[⟨"c1", "alice", some 3, "anthropic", 0⟩], []⟩ "c1"
          (.str "  ") "anthropic" 1).status = 400 :=
  ⟨by decide,
   (C8_invalid_content_rejected (some "alice")
      ⟨[⟨"c1", "alice", some 3, "anthropic", 0⟩], []⟩ "c1" (.str "  ") "anthropic" 1
      (by decide)).1,
   (C8_invalid_content_rejected (some "alice")
      ⟨[⟨"c1", "alice", some 3, "anthropic", 0⟩], []⟩ "c1" (.str "  ") "anthropic" 1
      (by decide)).2 "alice" ⟨"c1", "alice", some 3, "anthropic", 0⟩ rfl rfl rfl⟩

/-- **C10.** `MessageInput.handleSubmit` invokes `onSend` only with the
non-empty trimmed message and only when not loading, clearing the input
afterwards; a whitespace-only (or loading-state) submit invokes nothing and
leaves the state unchanged. -/
theorem C10_message_input (s : MessageInputState) :
    (∀ m, (handleSubmit s).1 = some m →
        m = trimStr s.message ∧ m ≠ "" ∧ s.isLoading = false ∧
          (handleSubmit s).2.message = "") ∧
      (trimStr s.message = "" ∨ s.isLoading = true →
        (handleSubmit s).1 = none ∧ (handleSubmit s).2 = s) := by
  by_cases h : trimStr s.message = "" ∨ s.isLoading = true
  · have he : handleSubmit s = (none, s) := by
      simp only [handleSubmit]
      rw [if_pos h]
    refine ⟨?_, fun _ => by rw [he]; exact ⟨rfl, rfl⟩⟩
    intro m hm
    rw [he] at hm
    exact absurd hm (by simp)
  · obtain ⟨h₁, h₂⟩ := not_or.1 h
    have he : handleSubmit s = (some (trimStr s.message), { s with message := "" }) := by
      simp only [handleSubmit]
      rw [if_neg h]
    refine ⟨?_, fun hor => absurd hor h⟩
    intro m hm
    rw [he] at hm
    obtain rfl : trimStr s.message = m := by simpa using hm
    refine ⟨rfl, h₁, ?_, by rw [he]⟩
    cases hb : s.isLoading
    · rfl
    · exact absurd hb h₂

theorem C10_witness :
    ("hi" = trimStr " hi " ∧ "hi" ≠ "" ∧ (false : Bool) = false ∧
        (handleSubmit ⟨" hi ", false⟩).2.message = "") ∧
      ((handleSubmit ⟨"   ", false⟩).1 = none ∧ (handleSubmit ⟨"   ", false⟩).2 = ⟨"   ", false⟩) :=
  ⟨(C10_message_input ⟨" hi ", false⟩).1 "hi" (by decide),
   (C10_message_input ⟨"   ", false⟩).2 (Or.inl (by decide))⟩

/-! ## Lemmas on the spec-modelled Graph Store upsert -/

lemma canonKey_mergeNode (k : String × String × String) (attrs : List (String × String))
    (now : Nat) (n : GraphNode) : canonKey (mergeNode k attrs now n) = canonKey n := by
  unfold mergeNode
  split <;> rfl

lemma upsert_keys_merge {store : List GraphNode} {uid ntype label : String}
    {attrs : List (String × String)} {now : Nat}
    (h : store.any (fun n => canonKey n = (uid, ntype, normalizeLabel label)) = true) :
    (upsert_node store uid ntype label attrs now).map canonKey = store.map canonKey := by
  unfold upsert_node
  rw [if_pos h, List.map_map]
  exact List.map_congr_left fun n _ => canonKey_mergeNode _ _ _ n

lemma upsert_keys_insert {store : List GraphNode} {uid ntype label : String}
    {attrs : List (String × String)} {now : Nat}
    (h : store.any (fun n => canonKey n = (uid, ntype, normalizeLabel label)) = false) :
    (upsert_node store uid ntype label attrs now).map canonKey =
      store.map canonKey ++ [(uid, ntype, normalizeLabel label)] := by
  unfold upsert_node
  rw [if_neg (by simp [h])]
  simp [canonKey]

lemma key_mem_upsert (store : List GraphNode) (uid ntype label : String)
    (attrs : List (String × String)) (now : Nat) :
    (uid, ntype, normalizeLabel label) ∈
      (upsert_node store uid ntype label attrs now).map canonKey := by
  cases h : store.any fun n => canonKey n = (uid, ntype, normalizeLabel label) with
  | true =>
    rw [upsert_keys_merge h]
    simp only [List.any_eq_true, decide_eq_true_eq] at h
    obtain ⟨n, hn, hk⟩ := h
    exact hk ▸ List.mem_map_of_mem canonKey hn
  | false =>
    rw [upsert_keys_insert h]
    simp

lemma upsert_preserves_nodup {store : List GraphNode} (h : KeysNodup store)
    (uid ntype label : String) (attrs : List (String × String)) (now : Nat) :
    KeysNodup (upsert_node store uid ntype label attrs now) := by
  unfold KeysNodup at h ⊢
  cases hm : store.any fun n => canonKey n = (uid, ntype, normalizeLabel label) with
  | true =>
    rw [upsert_keys_merge hm]
    exact h
  | false =>
    rw [upsert_keys_insert hm]
    have hnot : (uid, ntype, normalizeLabel label) ∉ store.map canonKey := by
      intro hmem
      obtain ⟨n, hn, hk⟩ := List.mem_map.1 hmem
      have h₂ : store.any (fun n => canonKey n = (uid, ntype, normalizeLabel label)) = true :=
        List.any_eq_true.2 ⟨n, hn, by simp [hk]⟩
      rw [hm] at h₂
      exact Bool.noConfusion h₂
    simp [List.nodup_append, h, hnot]

lemma upsert_merge_eq {store : List GraphNode} {uid ntype label : String}
    {attrs : List (String × String)} {now : Nat}
    (h : store.any (fun n => canonKey n = (uid, ntype, normalizeLabel label)) = true) :
    upsert_node store uid ntype label attrs now =
      store.map (mergeNode (uid, ntype, normalizeLabel label) attrs now) := by
  unfold upsert_node
  rw [if_pos h]

lemma upsert_merge_length {store : List GraphNode} {uid ntype label : String}
    {attrs : List (String × String)} {now : Nat}
    (h : store.any (fun n => canonKey n = (uid, ntype, normalizeLabel label)) = true) :
    (upsert_node store uid ntype label attrs now).length = store.length := by
  rw [upsert_merge_eq h]
  simp

lemma totalMentions_cons (n : GraphNode) (l : List GraphNode) :
    totalMentions (n :: l) = n.mention_count + totalMentions l := by
  simp [totalMentions]

lemma totalMentions_merge :
    ∀ (store : List GraphNode) (k : String × String × String)
      (attrs : List (String × String)) (now : Nat),
      (store.map canonKey).Nodup → k ∈ store.map canonKey →
      totalMentions (store.map (mergeNode k attrs now)) = totalMentions store + 1 := by
  intro store
  induction store with
  | nil => intro k attrs now _ hmem; simp at hmem
  | cons n store ih =>
    intro k attrs now hnodup hmem
    rw [List.map_cons] at hnodup hmem
    have hcons := List.nodup_cons.1 hnodup
    rw [List.map_cons]
    by_cases hk : canonKey n = k
    · have hhead : mergeNode k attrs now n =
          { n with
            mention_count := n.mention_count + 1
            attributes := unionAttrs n.attributes attrs
            last_reinforced_at := now } := by
        unfold mergeNode
        rw [if_pos hk]
      have e : ∀ m ∈ store, mergeNode k attrs now m = id m := by
        intro m hm
        unfold mergeNode
        rw [if_neg]
        · rfl
        · intro hkm
          exact hcons.1 (hk ▸ hkm ▸ List.mem_map_of_mem canonKey hm)
      rw [hhead, List.map_congr_left e, List.map_id, totalMentions_cons, totalMentions_cons]
      show n.mention_count + 1 + totalMentions store = n.mention_count + totalMentions store + 1
      omega
    · have hhead : mergeNode k attrs now n = n := by
        unfold mergeNode
        rw [if_neg hk]
      have hmem' : k ∈ store.map canonKey := by
        rcases List.mem_cons.1 hmem with h | h
        · exact absurd h.symm hk
        · exact h
      rw [hhead, totalMentions_cons, ih k attrs now hcons.2 hmem', totalMentions_cons]
      omega

/-! ## Lemmas on the spec-modelled context builder -/

lemma fitBudget_cons (budget : Nat) (f : Fragment) (fs : List Fragment) :
    fitBudget budget (f :: fs) =
      if f.tokens ≤ budget then f :: fitBudget (budget - f.tokens) fs else [] := rfl

lemma fitBudget_tokens : ∀ (fs : List Fragment) (budget : Nat),
    totalTokens (fitBudget budget fs) ≤ budget := by
  intro fs
  induction fs with
  | nil => intro budget; simp [fitBudget, totalTokens]
  | cons f fs ih =>
    intro budget
    rw [fitBudget_cons]
    split
    · rename_i hle
      have hrec := ih (budget - f.tokens)
      unfold totalTokens at hrec ⊢
      simp only [List.map_cons, List.sum_cons]
      omega
    · simp [totalTokens]

lemma fitBudget_isPrefix : ∀ (fs : List Fragment) (budget : Nat),
    fitBudget budget fs <+: fs := by
  intro fs
  induction fs with
  | nil => intro budget; simp [fitBudget]
  | cons f fs ih =>
    intro budget
    rw [fitBudget_cons]
    split
    · obtain ⟨t, ht⟩ := ih (budget - f.tokens)
      exact ⟨t, by rw [List.cons_append, ht]⟩
    · exact List.nil_prefix

lemma tagFrags_source (s : FragSource) (xs : List (String × Nat)) :
    ∀ f ∈ tagFrags s xs, f.source = s := by
  intro f hf
  obtain ⟨x, hx, rfl⟩ := List.mem_map.1 hf
  rfl

lemma tagFrags_length (s : FragSource) (xs : List (String × Nat)) :
    (tagFrags s xs).length = xs.length := by
  simp [tagFrags]

lemma countSource_append (s : FragSource) (l₁ l₂ : List Fragment) :
    countSource s (l₁ ++ l₂) = countSource s l₁ + countSource s l₂ := by
  simp [countSource, List.filter_append]

lemma countSource_all {s : FragSource} {l : List Fragment}
    (h : ∀ f ∈ l, f.source = s) : countSource s l = l.length := by
  unfold countSource
  rw [List.filter_eq_self.2 fun f hf => by simp [h f hf]]

lemma countSource_zero {s : FragSource} {l : List Fragment}
    (h : ∀ f ∈ l, f.source ≠ s) : countSource s l = 0 := by
  unfold countSource
  rw [List.filter_eq_nil_iff.2 fun f hf => by simp [h f hf]]
  rfl

lemma bundle_semantic_drop {A B C p : List Fragment}
    (h₁ : ∀ f ∈ A, f.source = .recency)
    (h₃ : p <+: A ++ B ++ C)
    (h₄ : countSource .recency p < A.length) :
    countSource .semantic p = 0 := by
  have hA : A <+: A ++ B ++ C := ⟨B ++ C, by rw [List.append_assoc]⟩
  rcases List.prefix_or_prefix_of_prefix h₃ hA with h | h
  · refine countSource_zero ?_
    intro f hf
    rw [h₁ f (h.subset hf)]
    simp
  · obtain ⟨q, rfl⟩ := h
    rw [countSource_append, countSource_all h₁] at h₄
    omega

/-! ## Claim theorems for the spec-modelled backend components -/

/-- **C4** (spec-modelled). After the assistant response is stored, the
orchestrator enqueues knowledge extraction on the new turn pair as async
work: the queued job carries exactly the new (user, assistant) pair, the
user-facing chunks are delivered by the turn itself before any queued job is
run by the background worker, and in the turn's phase sequence persistence
precedes extraction queueing. -/
theorem C4_async_extraction {δ : Type} (u : String) (genChunks : List String)
    (extract : TurnPair → δ) :
    (orchestrateTurn u genChunks).queued =
        [.extractJob ⟨u, (orchestrateTurn u genChunks).persistedResponse⟩] ∧
      (orchestrateTurn u genChunks).delivered = genChunks ∧
      runQueuedJobs extract (orchestrateTurn u genChunks).queued =
        [extract ⟨u, (orchestrateTurn u genChunks).persistedResponse⟩] ∧
      (orchestrateTurn u genChunks).phases.indexOf .persistedPhase <
        (orchestrateTurn u genChunks).phases.indexOf .extractionQueued := by
  refine ⟨rfl, rfl, rfl, ?_⟩
  have h : (orchestrateTurn u genChunks).phases =
      [.received, .contextBuilt, .generating, .persistedPhase, .extractionQueued, .done] := rfl
  rw [h]
  decide

/-- **C5** (spec-modelled). The canonical-key dedup invariant: upserts
preserve at-most-one-node-per-(user_id, type, normalized label), and a second
extraction pass with a semantically equivalent label (same normalized form)
for the same user and type merges into the existing node — the store's size
is unchanged and exactly one mention is added — rather than creating a
duplicate. -/
theorem C5_canonical_dedup (store : List GraphNode) (uid t l₁ l₂ : String)
    (a₁ a₂ : List (String × String)) (n₁ n₂ : Nat)
    (hinv : KeysNodup store)
    (heq : normalizeLabel l₁ = normalizeLabel l₂) :
    KeysNodup (upsert_node (upsert_node store uid t l₁ a₁ n₁) uid t l₂ a₂ n₂) ∧
      (upsert_node (upsert_node store uid t l₁ a₁ n₁) uid t l₂ a₂ n₂).length =
        (upsert_node store uid t l₁ a₁ n₁).length ∧
      totalMentions (upsert_node (upsert_node store uid t l₁ a₁ n₁) uid t l₂ a₂ n₂) =
        totalMentions (upsert_node store uid t l₁ a₁ n₁) + 1 := by
  have h₁ : KeysNodup (upsert_node store uid t l₁ a₁ n₁) :=
    upsert_preserves_nodup hinv uid t l₁ a₁ n₁
  have hmem : (uid, t, normalizeLabel l₂) ∈
      (upsert_node store uid t l₁ a₁ n₁).map canonKey := by
    rw [← heq]
    exact key_mem_upsert store uid t l₁ a₁ n₁
  have hany : (upsert_node store uid t l₁ a₁ n₁).any
      (fun n => canonKey n = (uid, t, normalizeLabel l₂)) = true := by
    simp only [List.any_eq_true, decide_eq_true_eq]
    obtain ⟨n, hn, hk⟩ := List.mem_map.1 hmem
    exact ⟨n, hn, hk⟩
  refine ⟨upsert_preserves_nodup h₁ uid t l₂ a₂ n₂, upsert_merge_length hany, ?_⟩
  rw [upsert_merge_eq hany]
  exact totalMentions_merge _ (uid, t, normalizeLabel l₂) a₂ n₂ h₁ hmem

theorem C5_witness :
    KeysNodup ([] : List GraphNode) ∧
      normalizeLabel "I love hiking" = normalizeLabel " i  LOVE hiking " ∧
      KeysNodup (upsert_node (upsert_node [] "u" "Concept" "I love hiking" [] 0)
        "u" "Concept" " i  LOVE hiking " [] 1) ∧
      (upsert_node (upsert_node [] "u" "Concept" "I love hiking" [] 0)
          "u" "Concept" " i  LOVE hiking " [] 1).length =
        (upsert_node [] "u" "Concept" "I love hiking" [] 0).length ∧
      totalMentions (upsert_node (upsert_node [] "u" "Concept" "I love hiking" [] 0)
          "u" "Concept" " i  LOVE hiking " [] 1) =
        totalMentions (upsert_node [] "u" "Concept" "I love hiking" [] 0) + 1 :=
  ⟨by simp [KeysNodup], by decide,
   (C5_canonical_dedup [] "u" "Concept" "I love hiking" " i  LOVE hiking " [] [] 0 1
      (by simp [KeysNodup]) (by decide)).1,
   (C5_canonical_dedup [] "u" "Concept" "I love hiking" " i  LOVE hiking " [] [] 0 1
      (by simp [KeysNodup]) (by decide)).2.1,
   (C5_canonical_dedup [] "u" "Concept" "I love hiking" " i  LOVE hiking " [] [] 0 1
      (by simp [KeysNodup]) (by decide)).2.2⟩

/-- **C6** (spec-modelled). `build_context` never returns a bundle whose
total token cost exceeds `budget_tokens`, and under tight budgets semantic
memories are dropped before recency turns: if any recency fragment was
truncated away, the bundle contains no semantic fragment at all. -/
theorem C6_context_budget (r g m : List (String × Nat)) (budget_tokens : Nat) :
    totalTokens (build_context r g m budget_tokens) ≤ budget_tokens ∧
      (countSource .recency (build_context r g m budget_tokens) < r.length →
        countSource .semantic (build_context r g m budget_tokens) = 0) := by
  constructor
  · exact fitBudget_tokens _ _
  · intro hc
    refine bundle_semantic_drop (tagFrags_source .recency r) (fitBudget_isPrefix _ _) ?_
    rw [tagFrags_length]
    exact hc

theorem C6_witness :
    totalTokens (build_context [("t", 5)] [] [("m", 1)] 3) ≤ 3 ∧
      countSource .semantic (build_context [("t", 5)] [] [("m", 1)] 3) = 0 :=
  ⟨(C6_context_budget [("t", 5)] [] [("m", 1)] 3).1,
   (C6_context_budget [("t", 5)] [] [("m", 1)] 3).2 (by decide)⟩

end DeepIntrospect
